import Mathlib

/-!
Shallow embedding of the signal-generation and orthogonality-scoring engine
of the 3d-orthogonality-viz repository (the complete variant in
src/unnamed/part_001, second file: `CONFIG`, `getWalsh`, `getLegendre`,
`updateGeometry`, `updateTutorialState`).

The rendering, DOM, audio and camera code is presentation glue and is not
modelled.  The engine's numeric core is modelled over the real numbers
(the JS source computes with IEEE doubles; statements about exact values
are read over exact real arithmetic, and display rounding by `toFixed` is
treated as formatting).  The classifier compares slider values, which are
decimal numbers, so it is modelled computably over the rationals.
-/

/-- The waveform family selector, `CONFIG.mode` in the source:
`sine`, `square`, `wave` (wavelet) or `poly` (Legendre). -/
inductive Mode where
  | sine
  | square
  | wave
  | poly
deriving DecidableEq

/-- Sub-kind of a collision classification, distinguished by the branch of
`updateTutorialState` taken when `absCorr > 0.8`: the `wave` branch
(packet collision), the `poly` branch (basis collapse), or the generic
else branch (signal overlap; the iso-view only changes its display text,
not the branch). -/
inductive CollisionKind where
  | packetCollision
  | basisCollapse
  | signalOverlap
deriving DecidableEq

/-- Classification tag produced by `updateTutorialState`.  `neutral` is the
final fallback that restores the active camera preset's descriptive text
(a display concern below the tag). -/
inductive Classification where
  | collision : CollisionKind → Classification
  | timeOrthogonal
  | walshOrthogonal
  | polynomialOrthogonal
  | quadratureMagic
  | neutral
deriving DecidableEq

/-- Truncation toward zero, as JavaScript division underlying `%` uses. -/
def ratTrunc (q : ℚ) : ℤ :=
  if 0 ≤ q then ⌊q⌋ else ⌈q⌉

/-- The JavaScript remainder operator `a % b`: `a - b * trunc (a / b)`. -/
def jsRem (a b : ℚ) : ℚ :=
  a - b * (ratTrunc (a / b) : ℚ)

/-- The classifier of `updateTutorialState` (src/unnamed/part_001, second
file, lines 715-749), reduced to its decision structure: the input is the
absolute correlation together with the configuration fields it reads
(`CONFIG.mode`, `CONFIG.f1`, `CONFIG.f2`, `CONFIG.phase`); the output is
the classification tag.  Display strings and the active-view text
selection are formatting on top of the tag. -/
def classify (m : Mode) (f1 f2 phase absCorr : ℚ) : Classification :=
  if 0.8 < absCorr then
    if m = Mode.wave then Classification.collision CollisionKind.packetCollision
    else if m = Mode.poly then Classification.collision CollisionKind.basisCollapse
    else Classification.collision CollisionKind.signalOverlap
  else
    if m = Mode.wave then Classification.timeOrthogonal
    else if m = Mode.square then Classification.walshOrthogonal
    else if m = Mode.poly then Classification.polynomialOrthogonal
    else if f1 = f2 ∧ |jsRem phase 180 - 90| < 10 then Classification.quadratureMagic
    else Classification.neutral

/-- State transformer of one iteration of the `getLegendre` loop, folded
over `k = 2, ..., n`.  The state is the pair `(p_prev2, p_prev1)`; the
iteration for index `i` uses `k = i + 2` and produces the new `p_curr`. -/
def legFold {α : Type} [Field α] (x : α) (m : ℕ) : α × α :=
  (List.range m).foldl
    (fun s i =>
      let k : α := ((i + 2 : ℕ) : α)
      (s.2, ((2 * k - 1) * x * s.2 - (k - 1) * s.1) / k))
    (1, x)

/-- `getLegendre` from the source: `n = 0` returns `1`, `n = 1` returns
`x`, otherwise the three-term-recurrence loop runs for `k = 2, ..., n`
starting from `p_prev2 = 1`, `p_prev1 = x`, `p_curr = x` and returns the
final `p_curr` (for `n < 0` the loop body never runs and `x` is
returned). -/
def getLegendre {α : Type} [Field α] (n : ℤ) (x : α) : α :=
  if n = 0 then 1
  else if n = 1 then x
  else (legFold x (n - 1).toNat).2

/-- `getWalsh` from the source: the sign of a sine. -/
noncomputable def getWalsh (f t : ℝ) : ℝ :=
  Real.sign (Real.sin (2 * Real.pi * f * t))

/-- The configuration fields of `CONFIG` read by `updateGeometry`
(`speed` and `isAudioOn` drive only animation and audio). -/
structure Config where
  f1 : ℝ
  f2 : ℝ
  amp1 : ℝ
  amp2 : ℝ
  phase : ℝ
  points : ℕ
  length : ℝ
  mode : Mode

/-- The phase in radians, `(CONFIG.phase * Math.PI) / 180`. -/
noncomputable def phiRad (c : Config) : ℝ :=
  c.phase * Real.pi / 180

/-- The integration step `dt = CONFIG.length / CONFIG.points`. -/
noncomputable def dtOf (c : Config) : ℝ :=
  c.length / (c.points : ℝ)

/-- The first signal's sample value `x` at loop index `i` of
`updateGeometry`, per mode. -/
noncomputable def xVal (c : Config) (i : ℕ) : ℝ :=
  let tRelative : ℝ := (i : ℝ) / (c.points : ℝ)
  let tReal : ℝ := tRelative * c.length
  match c.mode with
  | Mode.square => getWalsh c.f1 tRelative * 0.8 * c.amp1
  | Mode.wave =>
      let center1 := 0.3 * c.length
      let t1 := tReal - center1
      let env1 := Real.exp (-(t1 * t1) / (2 * 0.8))
      env1 * Real.sin (2 * Real.pi * c.f1 * t1) * c.amp1
  | Mode.poly =>
      let tNorm := tRelative * 2 - 1
      getLegendre (round c.f1) tNorm * c.amp1
  | Mode.sine => Real.sin (2 * Real.pi * c.f1 * tRelative) * c.amp1

/-- The second signal's sample value `y` at loop index `i` of
`updateGeometry`, per mode.  In square mode the phase acts through the
time shift `tShift = (phase / 360) / (f2 || 1)`; in wavelet mode it
slides the second packet's center. -/
noncomputable def yVal (c : Config) (i : ℕ) : ℝ :=
  let tRelative : ℝ := (i : ℝ) / (c.points : ℝ)
  let tReal : ℝ := tRelative * c.length
  match c.mode with
  | Mode.square =>
      let tShift := (c.phase / 360) / (if c.f2 = 0 then 1 else c.f2)
      Real.sign (Real.sin (2 * Real.pi * c.f2 * (tRelative + tShift))) * 0.8 * c.amp2
  | Mode.wave =>
      let shift := (c.phase / 360) * c.length * 0.5
      let center2 := 0.7 * c.length - shift
      let t2 := tReal - center2
      let env2 := Real.exp (-(t2 * t2) / (2 * 0.8))
      env2 * Real.sin (2 * Real.pi * c.f2 * t2) * c.amp2
  | Mode.poly =>
      let tNorm := tRelative * 2 - 1
      getLegendre (round c.f2) tNorm * c.amp2
  | Mode.sine => Real.sin (2 * Real.pi * c.f2 * tRelative + phiRad c) * c.amp2

/-- The accumulation loop of `updateGeometry`: starting from
`integral = power1 = power2 = 0`, each index `i < n` adds
`a i * b i * dt`, `a i * a i * dt` and `b i * b i * dt` respectively. -/
noncomputable def statLoop (a b : ℕ → ℝ) (dt : ℝ) (n : ℕ) : ℝ × ℝ × ℝ :=
  (List.range n).foldl
    (fun s i =>
      (s.1 + a i * b i * dt, s.2.1 + a i * a i * dt, s.2.2 + b i * b i * dt))
    (0, 0, 0)

/-- The accumulated `integral` after the loop. -/
noncomputable def integralSeq (a b : ℕ → ℝ) (dt : ℝ) (n : ℕ) : ℝ :=
  (statLoop a b dt n).1

/-- The accumulated `power1` after the loop. -/
noncomputable def power1Seq (a b : ℕ → ℝ) (dt : ℝ) (n : ℕ) : ℝ :=
  (statLoop a b dt n).2.1

/-- The accumulated `power2` after the loop. -/
noncomputable def power2Seq (a b : ℕ → ℝ) (dt : ℝ) (n : ℕ) : ℝ :=
  (statLoop a b dt n).2.2

/-- `norm = Math.sqrt(power1 * power2)`. -/
noncomputable def normSeq (a b : ℕ → ℝ) (dt : ℝ) (n : ℕ) : ℝ :=
  Real.sqrt (power1Seq a b dt n * power2Seq a b dt n)

/-- `corr = (norm > 0) ? (integral / norm) : 0`. -/
noncomputable def corrSeq (a b : ℕ → ℝ) (dt : ℝ) (n : ℕ) : ℝ :=
  if 0 < normSeq a b dt n then integralSeq a b dt n / normSeq a b dt n else 0

/-- `orthoScore = 100 - absCorr * 100` as a function of the absolute
correlation (source line `const orthoScore = (100 - absCorr * 100)`). -/
noncomputable def orthoScore (absCorr : ℝ) : ℝ :=
  100 - absCorr * 100

/-- The engine's correlation for a configuration: the statistic loop run
over the sampled values of both signals. -/
noncomputable def corrOf (c : Config) : ℝ :=
  corrSeq (xVal c) (yVal c) (dtOf c) c.points

/-- The engine's norm for a configuration. -/
noncomputable def normOf (c : Config) : ℝ :=
  normSeq (xVal c) (yVal c) (dtOf c) c.points

/-- The engine's orthogonality percentage for a configuration. -/
noncomputable def orthoOf (c : Config) : ℝ :=
  orthoScore |corrOf c|

/-! ### Unrolling the accumulation loop into closed-form sums -/

lemma statLoop_succ (a b : ℕ → ℝ) (dt : ℝ) (n : ℕ) :
    statLoop a b dt (n + 1) =
      ((statLoop a b dt n).1 + a n * b n * dt,
       (statLoop a b dt n).2.1 + a n * a n * dt,
       (statLoop a b dt n).2.2 + b n * b n * dt) := by
  unfold statLoop
  rw [List.range_succ, List.foldl_append, List.foldl_cons, List.foldl_nil]

lemma statLoop_eq (a b : ℕ → ℝ) (dt : ℝ) (n : ℕ) :
    statLoop a b dt n =
      (∑ i ∈ Finset.range n, a i * b i * dt,
       ∑ i ∈ Finset.range n, a i * a i * dt,
       ∑ i ∈ Finset.range n, b i * b i * dt) := by
  induction n with
  | zero => simp [statLoop]
  | succ n ih => rw [statLoop_succ, ih, Finset.sum_range_succ, Finset.sum_range_succ,
      Finset.sum_range_succ]

lemma integralSeq_eq (a b : ℕ → ℝ) (dt : ℝ) (n : ℕ) :
    integralSeq a b dt n = ∑ i ∈ Finset.range n, a i * b i * dt := by
  rw [integralSeq, statLoop_eq]

lemma power1Seq_eq (a b : ℕ → ℝ) (dt : ℝ) (n : ℕ) :
    power1Seq a b dt n = ∑ i ∈ Finset.range n, a i * a i * dt := by
  rw [power1Seq, statLoop_eq]

lemma power2Seq_eq (a b : ℕ → ℝ) (dt : ℝ) (n : ℕ) :
    power2Seq a b dt n = ∑ i ∈ Finset.range n, b i * b i * dt := by
  rw [power2Seq, statLoop_eq]

/-! ### Cauchy-Schwarz for the discrete statistic -/

lemma abs_integral_le_norm (a b : ℕ → ℝ) (dt : ℝ) (n : ℕ) :
    |integralSeq a b dt n| ≤ normSeq a b dt n := by
  have hSa : (0:ℝ) ≤ ∑ i ∈ Finset.range n, a i ^ 2 :=
    Finset.sum_nonneg fun i _ => sq_nonneg _
  have hSb : (0:ℝ) ≤ ∑ i ∈ Finset.range n, b i ^ 2 :=
    Finset.sum_nonneg fun i _ => sq_nonneg _
  have key : (∑ i ∈ Finset.range n, a i * b i) ^ 2 ≤
      (∑ i ∈ Finset.range n, a i ^ 2) * ∑ i ∈ Finset.range n, b i ^ 2 :=
    Finset.sum_mul_sq_le_sq_mul_sq (Finset.range n) a b
  have hI : integralSeq a b dt n = (∑ i ∈ Finset.range n, a i * b i) * dt := by
    rw [integralSeq_eq, ← Finset.sum_mul]
  have hP1 : power1Seq a b dt n = (∑ i ∈ Finset.range n, a i ^ 2) * dt := by
    rw [power1Seq_eq, ← Finset.sum_mul]
    congr 1
    exact Finset.sum_congr rfl fun i _ => by rw [sq]
  have hP2 : power2Seq a b dt n = (∑ i ∈ Finset.range n, b i ^ 2) * dt := by
    rw [power2Seq_eq, ← Finset.sum_mul]
    congr 1
    exact Finset.sum_congr rfl fun i _ => by rw [sq]
  have hN : normSeq a b dt n =
      Real.sqrt ((∑ i ∈ Finset.range n, a i ^ 2) * ∑ i ∈ Finset.range n, b i ^ 2) * |dt| := by
    rw [normSeq, hP1, hP2]
    have : (∑ i ∈ Finset.range n, a i ^ 2) * dt * ((∑ i ∈ Finset.range n, b i ^ 2) * dt) =
        (∑ i ∈ Finset.range n, a i ^ 2) * (∑ i ∈ Finset.range n, b i ^ 2) * dt ^ 2 := by
      ring
    rw [this, Real.sqrt_mul (mul_nonneg hSa hSb), Real.sqrt_sq_eq_abs]
  have habs : |∑ i ∈ Finset.range n, a i * b i| ≤
      Real.sqrt ((∑ i ∈ Finset.range n, a i ^ 2) * ∑ i ∈ Finset.range n, b i ^ 2) :=
    Real.abs_le_sqrt key
  calc |integralSeq a b dt n| = |∑ i ∈ Finset.range n, a i * b i| * |dt| := by
        rw [hI, abs_mul]
    _ ≤ Real.sqrt ((∑ i ∈ Finset.range n, a i ^ 2) * ∑ i ∈ Finset.range n, b i ^ 2) * |dt| :=
        mul_le_mul_of_nonneg_right habs (abs_nonneg dt)
    _ = normSeq a b dt n := hN.symm

/-- C5: for every pair of sampled value sequences, the left-Riemann inner
product never exceeds the geometric-mean norm of the two powers (discrete
Cauchy-Schwarz), and the correlation returned by the statistic computation
lies in the closed interval [-1, 1] (the zero-norm case returning 0). -/
theorem corr_in_unit_interval (a b : ℕ → ℝ) (dt : ℝ) (n : ℕ) :
    |integralSeq a b dt n| ≤ normSeq a b dt n ∧
      -1 ≤ corrSeq a b dt n ∧ corrSeq a b dt n ≤ 1 := by
  refine ⟨abs_integral_le_norm a b dt n, ?_⟩
  have h := abs_integral_le_norm a b dt n
  rw [corrSeq]
  split_ifs with hpos
  · have habs : |integralSeq a b dt n / normSeq a b dt n| ≤ 1 := by
      rw [abs_div, abs_of_pos hpos]
      exact (div_le_one hpos).mpr h
    exact abs_le.mp habs
  · norm_num

/-- C1: for a configuration with at least one sample, whenever the
square-root norm is strictly positive the engine's correlation equals the
plain left-Riemann inner product divided by the geometric-mean norm, with
step `dt = length / points`, no trapezoid correction and no
mean-centering. -/
theorem corrOf_eq_riemann (c : Config) (h1 : 1 ≤ c.points) (hn : 0 < normOf c) :
    corrOf c =
      (∑ i ∈ Finset.range c.points, xVal c i * yVal c i * dtOf c) /
        Real.sqrt ((∑ i ∈ Finset.range c.points, xVal c i * xVal c i * dtOf c) *
          ∑ i ∈ Finset.range c.points, yVal c i * yVal c i * dtOf c) := by
  rw [normOf] at hn
  rw [corrOf, corrSeq, if_pos hn, integralSeq_eq, normSeq, power1Seq_eq, power2Seq_eq]

/-- Concrete configuration used to evaluate the C1 statement: Legendre
mode of order 0 on both signals, one sample, unit length, so both sampled
values are 1 and the norm is 1. -/
noncomputable def c1cfg : Config :=
  { f1 := 0, f2 := 0, amp1 := 1, amp2 := 1, phase := 0,
    points := 1, length := 1, mode := Mode.poly }

lemma xVal_c1cfg : xVal c1cfg 0 = 1 := by
  simp [xVal, c1cfg, getLegendre]

lemma yVal_c1cfg : yVal c1cfg 0 = 1 := by
  simp [yVal, c1cfg, getLegendre]

lemma normOf_c1cfg : normOf c1cfg = 1 := by
  have hdt : dtOf c1cfg = 1 := by
    simp [dtOf, c1cfg]
  have hsl : statLoop (xVal c1cfg) (yVal c1cfg) (dtOf c1cfg) 1 = (1, 1, 1) := by
    rw [statLoop_eq]
    simp [Finset.sum_range_one, xVal_c1cfg, yVal_c1cfg, hdt]
  have hpoints : c1cfg.points = 1 := rfl
  rw [normOf, normSeq, power1Seq, power2Seq, hpoints, hsl]
  norm_num [Real.sqrt_one]

/-- Witness for C1: the hypotheses hold at `c1cfg` and the theorem applies
there. -/
theorem corrOf_eq_riemann_witness :
    1 ≤ c1cfg.points ∧ 0 < normOf c1cfg ∧
      corrOf c1cfg =
        (∑ i ∈ Finset.range c1cfg.points, xVal c1cfg i * yVal c1cfg i * dtOf c1cfg) /
          Real.sqrt ((∑ i ∈ Finset.range c1cfg.points, xVal c1cfg i * xVal c1cfg i * dtOf c1cfg) *
            ∑ i ∈ Finset.range c1cfg.points, yVal c1cfg i * yVal c1cfg i * dtOf c1cfg) := by
  have hpos : 0 < normOf c1cfg := by rw [normOf_c1cfg]; norm_num
  exact ⟨le_refl 1, hpos, corrOf_eq_riemann c1cfg (le_refl 1) hpos⟩

/-! ### Classifier claims -/

/-- C2: whenever the absolute correlation exceeds 0.8 the classifier
returns a collision regardless of family, frequencies or phase, with
sub-kind packet collision for the wavelet family, basis collapse for the
Legendre family, and the generic signal overlap otherwise. -/
theorem collision_priority (m : Mode) (f1 f2 phase absCorr : ℚ)
    (h : 0.8 < absCorr) :
    classify m f1 f2 phase absCorr =
      Classification.collision
        (if m = Mode.wave then CollisionKind.packetCollision
         else if m = Mode.poly then CollisionKind.basisCollapse
         else CollisionKind.signalOverlap) := by
  rw [classify, if_pos h]
  cases m <;> rfl

/-- Witness for C2: a sine-family input with absolute correlation 0.9 is
classified as a generic signal-overlap collision. -/
theorem collision_priority_witness :
    (0.8 : ℚ) < 0.9 ∧
      classify Mode.sine 2 2 0 0.9 =
        Classification.collision CollisionKind.signalOverlap := by
  refine ⟨by norm_num, ?_⟩
  have h := collision_priority Mode.sine 2 2 0 0.9 (by norm_num)
  simpa using h

/-- C3: with sine family, equal frequencies, a phase whose JavaScript
remainder mod 180 lies strictly within 10 degrees of 90 degrees, and an
absolute correlation not exceeding the 0.8 collision threshold, the
classifier returns the quadrature-magic classification. -/
theorem quadrature_magic_rule (f1 f2 phase absCorr : ℚ) (he : f1 = f2)
    (hp : |jsRem phase 180 - 90| < 10) (ha : absCorr ≤ 0.8) :
    classify Mode.sine f1 f2 phase absCorr = Classification.quadratureMagic := by
  rw [classify, if_neg (not_lt.mpr ha)]
  simp [he, hp]

/-- Witness for C3: frequencies 2 and 2 with phase 90 and a small
absolute correlation are classified as quadrature magic. -/
theorem quadrature_magic_rule_witness :
    (2 : ℚ) = 2 ∧ |jsRem 90 180 - 90| < 10 ∧ (0 : ℚ) ≤ 0.8 ∧
      classify Mode.sine 2 2 90 0 = Classification.quadratureMagic := by
  have hp : |jsRem (90 : ℚ) 180 - 90| < 10 := by
    norm_num [jsRem, ratTrunc]
  exact ⟨rfl, hp, by norm_num, quadrature_magic_rule 2 2 90 0 rfl hp (by norm_num)⟩

/-! ### Zero-power guard -/

lemma xVal_amp1_zero (c : Config) (h : c.amp1 = 0) (i : ℕ) : xVal c i = 0 := by
  obtain ⟨f1, f2, amp1, amp2, phase, points, len, m⟩ := c
  replace h : amp1 = 0 := h
  cases m <;> simp [xVal, h]

lemma yVal_amp2_zero (c : Config) (h : c.amp2 = 0) (i : ℕ) : yVal c i = 0 := by
  obtain ⟨f1, f2, amp1, amp2, phase, points, len, m⟩ := c
  replace h : amp2 = 0 := h
  cases m <;> simp [yVal, h]

/-- C4: when one signal is identically zero over all samples — in
particular when its amplitude is 0, which zeroes every sampled value and
the norm — the statistic computation returns correlation exactly 0; the
divide-by-zero guard means no error arises (the definition is total). -/
theorem corr_zero_guard (c : Config) (h : c.amp1 = 0 ∨ c.amp2 = 0) :
    corrOf c = 0 := by
  have hnorm : normSeq (xVal c) (yVal c) (dtOf c) c.points = 0 := by
    cases h with
    | inl h1 =>
        have hp1 : power1Seq (xVal c) (yVal c) (dtOf c) c.points = 0 := by
          rw [power1Seq_eq]
          exact Finset.sum_eq_zero fun i _ => by rw [xVal_amp1_zero c h1 i]; ring
        rw [normSeq, hp1, zero_mul, Real.sqrt_zero]
    | inr h2 =>
        have hp2 : power2Seq (xVal c) (yVal c) (dtOf c) c.points = 0 := by
          rw [power2Seq_eq]
          exact Finset.sum_eq_zero fun i _ => by rw [yVal_amp2_zero c h2 i]; ring
        rw [normSeq, hp2, mul_zero, Real.sqrt_zero]
  rw [corrOf, corrSeq]
  simp [hnorm]

/-- Concrete configuration for the C4 statement: sine mode with the first
amplitude set to 0. -/
noncomputable def c4cfg : Config :=
  { f1 := 2, f2 := 3, amp1 := 0, amp2 := 1, phase := 0,
    points := 4, length := 12, mode := Mode.sine }

/-- Witness for C4: with `amp1 = 0` the correlation evaluates to 0. -/
theorem corr_zero_guard_witness :
    c4cfg.amp1 = 0 ∧ corrOf c4cfg = 0 :=
  ⟨rfl, corr_zero_guard c4cfg (Or.inl rfl)⟩

/-! ### Orthogonality percentage -/

/-- C6: the reported orthogonality percentage is exactly
`100 - 100 * |correlation|` with no clamping: an absolute correlation
above 1 would produce a negative percentage, reported as-is. -/
theorem ortho_formula (c : Config) (x : ℝ) (hx : 1 < |x|) :
    orthoOf c = 100 - 100 * |corrOf c| ∧ orthoScore |x| < 0 := by
  constructor
  · rw [orthoOf, orthoScore]; ring
  · rw [orthoScore]; linarith

/-- Concrete configuration for the C6 statement. -/
noncomputable def c6cfg : Config :=
  { f1 := 2, f2 := 3, amp1 := 1, amp2 := 1, phase := 0,
    points := 4, length := 12, mode := Mode.sine }

/-- Witness for C6: the percentage identity at `c6cfg`, and the
hypothetical out-of-range absolute correlation 2 yields a negative
percentage. -/
theorem ortho_formula_witness :
    1 < |(-2 : ℝ)| ∧
      (orthoOf c6cfg = 100 - 100 * |corrOf c6cfg| ∧ orthoScore |(-2 : ℝ)| < 0) :=
  ⟨by norm_num, ortho_formula c6cfg (-2) (by norm_num)⟩

/-! ### Legendre recurrence -/

lemma getLegendre_zero {α : Type} [Field α] (x : α) : getLegendre 0 x = 1 := by
  simp [getLegendre]

lemma getLegendre_one {α : Type} [Field α] (x : α) : getLegendre 1 x = x := by
  simp [getLegendre]

lemma legFold_succ {α : Type} [Field α] (x : α) (m : ℕ) :
    legFold x (m + 1) =
      ((legFold x m).2,
       ((2 * ((m + 2 : ℕ) : α) - 1) * x * (legFold x m).2 -
         (((m + 2 : ℕ) : α) - 1) * (legFold x m).1) / ((m + 2 : ℕ) : α)) := by
  unfold legFold
  rw [List.range_succ, List.foldl_append, List.foldl_cons, List.foldl_nil]

lemma getLegendre_nat_succ {α : Type} [Field α] (x : α) (m : ℕ) :
    getLegendre ((m : ℤ) + 2) x = (legFold x (m + 1)).2 := by
  rw [getLegendre, if_neg (by omega), if_neg (by omega)]
  have ht : ((m : ℤ) + 2 - 1).toNat = m + 1 := by omega
  rw [ht]

lemma legFold_eq {α : Type} [Field α] (x : α) (m : ℕ) :
    legFold x m = (getLegendre (m : ℤ) x, getLegendre ((m : ℤ) + 1) x) := by
  induction m with
  | zero =>
      simp only [Nat.cast_zero, zero_add, getLegendre_zero, getLegendre_one]
      rfl
  | succ m ih =>
      rw [Prod.ext_iff]
      constructor
      · rw [legFold_succ, ih]
        show getLegendre ((m : ℤ) + 1) x = getLegendre ((m + 1 : ℕ) : ℤ) x
        norm_cast
      · have hcast : (((m + 1 : ℕ) : ℤ) + 1) = ((m : ℤ) + 2) := by push_cast; ring
        show (legFold x (m + 1)).2 = getLegendre (((m + 1 : ℕ) : ℤ) + 1) x
        rw [hcast, getLegendre_nat_succ]

/-- C7: the Legendre evaluator satisfies the closed forms of the first
three polynomials for every input, and its loop implements the standard
three-term recurrence `k·Pₖ = (2k−1)·x·Pₖ₋₁ − (k−1)·Pₖ₋₂` for every
order `k ≥ 2`. -/
theorem legendre_closed_forms (x : ℝ) (k : ℕ) (hk : 2 ≤ k) :
    getLegendre 0 x = 1 ∧ getLegendre 1 x = x ∧
      getLegendre 2 x = (3 * x ^ 2 - 1) / 2 ∧
      (k : ℝ) * getLegendre (k : ℤ) x =
        (2 * (k : ℝ) - 1) * x * getLegendre ((k : ℤ) - 1) x -
          ((k : ℝ) - 1) * getLegendre ((k : ℤ) - 2) x := by
  obtain ⟨m, rfl⟩ : ∃ m, k = m + 2 := ⟨k - 2, by omega⟩
  refine ⟨getLegendre_zero x, getLegendre_one x, ?_, ?_⟩
  · have h2 : getLegendre (2 : ℤ) x = (legFold x 1).2 := by
      rw [show (2 : ℤ) = ((0 : ℕ) : ℤ) + 2 by norm_num, getLegendre_nat_succ]
    rw [h2, legFold_succ]
    show ((2 * ((0 + 2 : ℕ) : ℝ) - 1) * x * x - (((0 + 2 : ℕ) : ℝ) - 1) * 1) /
        ((0 + 2 : ℕ) : ℝ) = (3 * x ^ 2 - 1) / 2
    push_cast
    ring
  · have hC : ((m + 2 : ℕ) : ℝ) ≠ 0 := by positivity
    have e1 : ((m + 2 : ℕ) : ℤ) = (m : ℤ) + 2 := by push_cast; ring
    have e2 : ((m + 2 : ℕ) : ℤ) - 1 = (m : ℤ) + 1 := by push_cast; ring
    have e3 : ((m + 2 : ℕ) : ℤ) - 2 = (m : ℤ) := by push_cast; ring
    have key : getLegendre ((m : ℤ) + 2) x =
        ((2 * ((m + 2 : ℕ) : ℝ) - 1) * x * getLegendre ((m : ℤ) + 1) x -
          (((m + 2 : ℕ) : ℝ) - 1) * getLegendre ((m : ℤ)) x) / ((m + 2 : ℕ) : ℝ) := by
      rw [getLegendre_nat_succ, legFold_succ, legFold_eq]
    rw [e2, e3, e1, key]
    field_simp

/-- Witness for C7: the closed forms and the recurrence step evaluated at
`x = 2`, `k = 2`. -/
theorem legendre_closed_forms_witness :
    (2 : ℕ) ≤ 2 ∧
      (getLegendre 0 (2 : ℝ) = 1 ∧ getLegendre 1 (2 : ℝ) = 2 ∧
        getLegendre 2 (2 : ℝ) = (3 * (2 : ℝ) ^ 2 - 1) / 2 ∧
        ((2 : ℕ) : ℝ) * getLegendre ((2 : ℕ) : ℤ) (2 : ℝ) =
          (2 * ((2 : ℕ) : ℝ) - 1) * 2 * getLegendre (((2 : ℕ) : ℤ) - 1) (2 : ℝ) -
            (((2 : ℕ) : ℝ) - 1) * getLegendre (((2 : ℕ) : ℤ) - 2) (2 : ℝ)) :=
  ⟨le_refl 2, legendre_closed_forms 2 2 (le_refl 2)⟩

/-! ### Square (Walsh) mode -/

lemma xVal_square (c : Config) (h : c.mode = Mode.square) (i : ℕ) :
    xVal c i =
      Real.sign (Real.sin (2 * Real.pi * c.f1 * ((i : ℝ) / (c.points : ℝ)))) *
        0.8 * c.amp1 := by
  obtain ⟨f1, f2, amp1, amp2, phase, points, len, m⟩ := c
  replace h : m = Mode.square := h
  subst h
  simp [xVal, getWalsh]

lemma yVal_square (c : Config) (h : c.mode = Mode.square) (i : ℕ) :
    yVal c i =
      Real.sign (Real.sin (2 * Real.pi * c.f2 *
        ((i : ℝ) / (c.points : ℝ) +
          (c.phase / 360) / (if c.f2 = 0 then 1 else c.f2)))) * 0.8 * c.amp2 := by
  obtain ⟨f1, f2, amp1, amp2, phase, points, len, m⟩ := c
  replace h : m = Mode.square := h
  subst h
  simp [yVal]

/-- Concrete square-mode configuration: frequency 1, amplitude 1, phase 0,
1200 samples.  At index 300 the normalized time is 1/4 and the sine's
argument is π/2. -/
noncomputable def c8cfg : Config :=
  { f1 := 1, f2 := 1, amp1 := 1, amp2 := 1, phase := 0,
    points := 1200, length := 12, mode := Mode.square }

lemma c8_arg : 2 * Real.pi * c8cfg.f1 * (((300 : ℕ) : ℝ) / (c8cfg.points : ℝ)) =
    Real.pi / 2 := by
  show 2 * Real.pi * (1 : ℝ) * (((300 : ℕ) : ℝ) / (((1200 : ℕ) : ℕ) : ℝ)) = Real.pi / 2
  push_cast
  ring

/-- Counterexample to C8 as stated: in square mode the produced sample is
not `amplitude · sign(sin(2π·frequency·tNormalized + phaseOffset))`; at
index 300 of `c8cfg` that formula gives 1 while the code produces 0.8. -/
theorem square_value_counterexample :
    xVal c8cfg 300 ≠
      c8cfg.amp1 * Real.sign (Real.sin
        (2 * Real.pi * c8cfg.f1 * (((300 : ℕ) : ℝ) / (c8cfg.points : ℝ)) +
          phiRad c8cfg)) := by
  have hphi : phiRad c8cfg = 0 := by
    show (0 : ℝ) * Real.pi / 180 = 0
    ring
  have hx : xVal c8cfg 300 = 0.8 := by
    rw [xVal_square c8cfg rfl 300, c8_arg, Real.sin_pi_div_two, Real.sign_one]
    show (1 : ℝ) * 0.8 * 1 = 0.8
    norm_num
  have hrhs : c8cfg.amp1 * Real.sign (Real.sin
      (2 * Real.pi * c8cfg.f1 * (((300 : ℕ) : ℝ) / (c8cfg.points : ℝ)) +
        phiRad c8cfg)) = 1 := by
    rw [hphi, add_zero, c8_arg, Real.sin_pi_div_two, Real.sign_one]
    show (1 : ℝ) * 1 = 1
    norm_num
  rw [hx, hrhs]
  norm_num

/-- C8 amended: in square mode each sample of the first signal equals
`sign(sin(2π·f1·tNormalized)) · 0.8 · amp1` (no phase term), each sample
of the second signal equals
`sign(sin(2π·f2·tNormalized + phaseRadians)) · 0.8 · amp2` whenever
`f2 ≠ 0` (the phase enters as an equivalent time shift), and every sample
of the first signal is exactly `±0.8·amplitude` or `0` — the code scales
by the extra visual factor 0.8. -/
theorem square_value_formula (c : Config) (i : ℕ) (h : c.mode = Mode.square) :
    xVal c i =
        Real.sign (Real.sin (2 * Real.pi * c.f1 * ((i : ℝ) / (c.points : ℝ)))) *
          0.8 * c.amp1 ∧
      (c.f2 ≠ 0 →
        yVal c i =
          Real.sign (Real.sin (2 * Real.pi * c.f2 * ((i : ℝ) / (c.points : ℝ)) +
            phiRad c)) * 0.8 * c.amp2) ∧
      (xVal c i = 0.8 * c.amp1 ∨ xVal c i = -(0.8 * c.amp1) ∨ xVal c i = 0) := by
  have hx := xVal_square c h i
  refine ⟨hx, ?_, ?_⟩
  · intro hf2
    rw [yVal_square c h i]
    have harg : 2 * Real.pi * c.f2 *
        ((i : ℝ) / (c.points : ℝ) + (c.phase / 360) / (if c.f2 = 0 then 1 else c.f2)) =
        2 * Real.pi * c.f2 * ((i : ℝ) / (c.points : ℝ)) + phiRad c := by
      rw [if_neg hf2, phiRad]
      field_simp
      ring
    rw [harg]
  · rcases lt_trichotomy
        (Real.sin (2 * Real.pi * c.f1 * ((i : ℝ) / (c.points : ℝ)))) 0 with hlt | heq | hgt
    · right; left
      rw [hx, Real.sign_of_neg hlt]
      ring
    · right; right
      rw [hx, heq, Real.sign_zero]
      ring
    · left
      rw [hx, Real.sign_of_pos hgt]
      ring

/-- Witness for the amended C8 at `c8cfg`, index 300, with the nonzero
second frequency discharged. -/
theorem square_value_formula_witness :
    c8cfg.mode = Mode.square ∧ c8cfg.f2 ≠ 0 ∧
      xVal c8cfg 300 =
        Real.sign (Real.sin (2 * Real.pi * c8cfg.f1 *
          (((300 : ℕ) : ℝ) / (c8cfg.points : ℝ)))) * 0.8 * c8cfg.amp1 ∧
      yVal c8cfg 300 =
        Real.sign (Real.sin (2 * Real.pi * c8cfg.f2 *
          (((300 : ℕ) : ℝ) / (c8cfg.points : ℝ)) + phiRad c8cfg)) * 0.8 * c8cfg.amp2 ∧
      (xVal c8cfg 300 = 0.8 * c8cfg.amp1 ∨ xVal c8cfg 300 = -(0.8 * c8cfg.amp1) ∨
        xVal c8cfg 300 = 0) := by
  have hf2 : c8cfg.f2 ≠ 0 := by
    show (1 : ℝ) ≠ 0
    norm_num
  have h := square_value_formula c8cfg 300 rfl
  exact ⟨rfl, hf2, h.1, h.2.1 hf2, h.2.2⟩

/-! ### Degenerate configurations -/

/-- Degenerate configuration with a single sample (`points = 1 < 2`). -/
noncomputable def c9cfg : Config :=
  { f1 := 2, f2 := 3, amp1 := 1, amp2 := 1, phase := 0,
    points := 1, length := 12, mode := Mode.sine }

lemma xVal_sine_zero_index (c : Config) (hm : c.mode = Mode.sine) : xVal c 0 = 0 := by
  obtain ⟨f1, f2, amp1, amp2, phase, points, len, m⟩ := c
  replace hm : m = Mode.sine := hm
  subst hm
  simp [xVal]

/-- Counterexample to C9 as stated: on a configuration with
`sampleCount = 1 < 2` the engine does not raise or return any error — it
produces the full statistic, here correlation 0 and percentage 100. -/
theorem no_validation_counterexample :
    c9cfg.points < 2 ∧ corrOf c9cfg = 0 ∧ orthoOf c9cfg = 100 := by
  have hx : xVal c9cfg 0 = 0 := xVal_sine_zero_index c9cfg rfl
  have hp1 : power1Seq (xVal c9cfg) (yVal c9cfg) (dtOf c9cfg) c9cfg.points = 0 := by
    have hpts : c9cfg.points = 1 := rfl
    rw [hpts, power1Seq_eq]
    simp [Finset.sum_range_one, hx]
  have hnorm : normSeq (xVal c9cfg) (yVal c9cfg) (dtOf c9cfg) c9cfg.points = 0 := by
    rw [normSeq, hp1, zero_mul, Real.sqrt_zero]
  have hcorr : corrOf c9cfg = 0 := by
    rw [corrOf, corrSeq]
    simp [hnorm]
  refine ⟨by norm_num [c9cfg], hcorr, ?_⟩
  rw [orthoOf, hcorr]
  simp [orthoScore]

/-- C9 amended: the engine performs no configuration validation and is
total — in particular a degenerate sine configuration with
`sampleCount ≤ 1` still yields the statistic, with correlation exactly 0
(a single sine sample at `t = 0` is zero, so the norm is zero and the
divide-by-zero guard returns 0). -/
theorem degenerate_config_no_error (c : Config) (hm : c.mode = Mode.sine)
    (hp : c.points ≤ 1) :
    corrOf c = 0 := by
  have hnorm : normSeq (xVal c) (yVal c) (dtOf c) c.points = 0 := by
    rcases Nat.le_one_iff_eq_zero_or_eq_one.mp hp with h0 | h1
    · rw [normSeq, power1Seq_eq, h0, Finset.range_zero, Finset.sum_empty, zero_mul,
        Real.sqrt_zero]
    · have hx : xVal c 0 = 0 := xVal_sine_zero_index c hm
      rw [normSeq, power1Seq_eq, h1]
      simp [Finset.sum_range_one, hx]
  rw [corrOf, corrSeq]
  simp [hnorm]

/-- Degenerate configuration used to evaluate the amended C9. -/
noncomputable def c9acfg : Config :=
  { f1 := 5, f2 := 7, amp1 := 1, amp2 := 1, phase := 30,
    points := 1, length := 10, mode := Mode.sine }

/-- Witness for the amended C9. -/
theorem degenerate_config_no_error_witness :
    c9acfg.mode = Mode.sine ∧ c9acfg.points ≤ 1 ∧ corrOf c9acfg = 0 :=
  ⟨rfl, le_refl 1, degenerate_config_no_error c9acfg rfl (le_refl 1)⟩

/-! ### Phase independence of the Legendre mode -/

lemma xVal_poly_phase (c : Config) (h : c.mode = Mode.poly) (ph : ℝ) (i : ℕ) :
    xVal { c with phase := ph } i = xVal c i := by
  obtain ⟨f1, f2, amp1, amp2, phase, points, len, m⟩ := c
  replace h : m = Mode.poly := h
  subst h
  simp [xVal]

lemma yVal_poly_phase (c : Config) (h : c.mode = Mode.poly) (ph : ℝ) (i : ℕ) :
    yVal { c with phase := ph } i = yVal c i := by
  obtain ⟨f1, f2, amp1, amp2, phase, points, len, m⟩ := c
  replace h : m = Mode.poly := h
  subst h
  simp [yVal]

/-- C10: in Legendre (poly) mode the produced curve samples, the
correlation and the orthogonality percentage are all independent of the
phase parameter: two configurations differing only in phase give equal
outputs. -/
theorem poly_phase_independence (c : Config) (ph ph' : ℝ) (h : c.mode = Mode.poly) :
    (∀ i, xVal { c with phase := ph } i = xVal { c with phase := ph' } i) ∧
      (∀ i, yVal { c with phase := ph } i = yVal { c with phase := ph' } i) ∧
      corrOf { c with phase := ph } = corrOf { c with phase := ph' } ∧
      orthoOf { c with phase := ph } = orthoOf { c with phase := ph' } := by
  have hx : ∀ i, xVal { c with phase := ph } i = xVal { c with phase := ph' } i := by
    intro i
    rw [xVal_poly_phase c h ph i, xVal_poly_phase c h ph' i]
  have hy : ∀ i, yVal { c with phase := ph } i = yVal { c with phase := ph' } i := by
    intro i
    rw [yVal_poly_phase c h ph i, yVal_poly_phase c h ph' i]
  have hxf : xVal { c with phase := ph } = xVal { c with phase := ph' } := funext hx
  have hyf : yVal { c with phase := ph } = yVal { c with phase := ph' } := funext hy
  have hdt : dtOf { c with phase := ph } = dtOf { c with phase := ph' } := rfl
  have hpts : ({ c with phase := ph } : Config).points =
      ({ c with phase := ph' } : Config).points := rfl
  have hcorr : corrOf { c with phase := ph } = corrOf { c with phase := ph' } := by
    rw [corrOf, corrOf, hxf, hyf, hdt, hpts]
  refine ⟨hx, hy, hcorr, ?_⟩
  rw [orthoOf, orthoOf, hcorr]

/-- Legendre-mode configuration used to evaluate C10. -/
noncomputable def c10cfg : Config :=
  { f1 := 1, f2 := 2, amp1 := 1, amp2 := 1, phase := 0,
    points := 8, length := 12, mode := Mode.poly }

/-- Witness for C10: phases 0 and 90 give identical poly-mode outputs,
here stated at sample index 3 and for the scalar statistics. -/
theorem poly_phase_independence_witness :
    c10cfg.mode = Mode.poly ∧
      xVal { c10cfg with phase := 0 } 3 = xVal { c10cfg with phase := 90 } 3 ∧
      yVal { c10cfg with phase := 0 } 3 = yVal { c10cfg with phase := 90 } 3 ∧
      corrOf { c10cfg with phase := 0 } = corrOf { c10cfg with phase := 90 } ∧
      orthoOf { c10cfg with phase := 0 } = orthoOf { c10cfg with phase := 90 } := by
  have h := poly_phase_independence c10cfg 0 90 rfl
  exact ⟨rfl, h.1 3, h.2.1 3, h.2.2.1, h.2.2.2⟩
